import Mathlib

/-!
Verification of the order-management core of the `nodejs-pro` repository.

The embedding translates, from the source:
- `src/modules/orders/orders.service.ts` (`createOrder`, `findById`),
- `src/modules/products/products.service.ts` (`findByIds`) and the
  request-scoped `ProductLoader` batch function,
- the entity model (`Order`, `OrderItem`, `Product`, `OrderStatus`) and the
  storage-level UNIQUE constraint on `Order.idempotencyKey`.

Machine integers: ids are `Nat`; money amounts (`price`, `totalPrice`) and
`stock` are `Int` (the `int`/`decimal` columns), quantities are `Nat`.
Fallible code returns `Except`; the try/catch/finally transaction wrapper
of `createOrder` is modelled by `TxResult`, which records the state visible
after the call (commit keeps the in-transaction state, rollback restores the
initial one), the response or rethrown error, whether the query-runner was
released, and the set of row ids the lock query covered.
-/

deriving instance DecidableEq for Except

namespace OrdersSpec

/-- Mirror of the `products` entity (`product.entity.ts`): id, name, unit
price and integer stock column. -/
structure Product where
  id : Nat
  name : String
  price : Int
  stock : Int
deriving Repr, DecidableEq

/-- Mirror of `OrderStatus` (`order.entity.ts`). -/
inductive OrderStatus
  | pending
  | confirmed
  | cancelled
deriving Repr, DecidableEq

/-- Mirror of the `order_items` entity: product reference, quantity and the
price snapshot column. -/
structure OrderItem where
  productId : Nat
  quantity : Nat
  price : Int
deriving Repr, DecidableEq

/-- Mirror of the `orders` entity: owning user, total price, status, the
unique idempotency key, creation timestamp and owned items. -/
structure Order where
  id : Nat
  userId : Nat
  totalPrice : Int
  status : OrderStatus
  idempotencyKey : String
  createdAt : Nat
  items : List OrderItem
deriving Repr, DecidableEq

/-- Mirror of `CreateOrderItemDto` (`create-order.dto.ts`). -/
structure CreateOrderItemDto where
  productId : Nat
  quantity : Nat
deriving Repr, DecidableEq

/-- Mirror of `CreateOrderDto`. -/
structure CreateOrderDto where
  userId : Nat
  items : List CreateOrderItemDto
  idempotencyKey : String
deriving Repr, DecidableEq

/-- The errors `createOrder` can raise.  `notFoundUser`, `notFoundProducts`
and `notFoundProduct` are the `NotFoundException`s thrown at steps 2-4;
`insufficientStock` is the `ConflictException` of step 5 (carrying the
product name and the requested/available quantities of its message);
`lockContention` is the storage error raised when the
`pessimistic_write_or_fail` (`FOR NO KEY UPDATE NOWAIT`) query hits a row
locked by another transaction; `duplicateKey` is the storage error raised
when the order insert violates the UNIQUE constraint on `idempotencyKey`;
`storageFault` stands for any other unexpected storage failure. -/
inductive OrderError
  | notFoundUser (userId : Nat)
  | notFoundProducts (missing : List Nat)
  | notFoundProduct (productId : Nat)
  | insufficientStock (name : String) (requested : Nat) (available : Int)
  | lockContention (ids : List Nat)
  | duplicateKey (key : String)
  | storageFault (msg : String)
deriving Repr, DecidableEq

/-- How an error surfaces at the HTTP boundary.  NestJS maps
`NotFoundException` to not-found and `ConflictException` to conflict; any
other thrown value - in particular the raw `QueryFailedError`s produced by a
failed `NOWAIT` lock or a UNIQUE-constraint violation, which `createOrder`'s
catch block rethrows unchanged - surfaces as a generic internal error (the
repository's own e2e test comments this as "409 or 500 from lock"). -/
inductive ErrorKind
  | notFound
  | conflict
  | internal
deriving Repr, DecidableEq

/-- Surfacing of each error constructor, following the source: only the
exceptions explicitly constructed in `orders.service.ts` are HTTP
exceptions; lock-contention and duplicate-key storage errors are rethrown
raw and surface as internal. -/
def OrderError.kind : OrderError → ErrorKind
  | .notFoundUser _ => .notFound
  | .notFoundProducts _ => .notFound
  | .notFoundProduct _ => .notFound
  | .insufficientStock _ _ _ => .conflict
  | .lockContention _ => .internal
  | .duplicateKey _ => .internal
  | .storageFault _ => .internal

/-- Persistent storage state: user ids, product rows, order rows, the next
generated order id and a clock for `createdAt`. -/
structure State where
  users : List Nat
  products : List Product
  orders : List Order
  nextOrderId : Nat
  now : Nat
deriving Repr, DecidableEq

/-- Result of one `createOrder` call, modelling the
try/catch/finally wrapper: `committed` is the storage state visible after
the call (the in-transaction state on commit, the initial state on
rollback), `response` the returned order or the rethrown original error,
`released` whether `queryRunner.release()` ran, and `lockedIds` the row ids
covered by the lock query (empty when the call never locked anything). -/
structure TxResult where
  committed : State
  response : Except OrderError Order
  released : Bool
  lockedIds : List Nat
deriving Repr, DecidableEq

/-- First-occurrence deduplication, mirroring `[...new Set(productIds)]`:
`seen` accumulates the ids already emitted. -/
def uniqueFirstAux (seen : List Nat) : List Nat → List Nat
  | [] => []
  | x :: xs =>
    if x ∈ seen then uniqueFirstAux seen xs
    else x :: uniqueFirstAux (x :: seen) xs

/-- Deduplicated id list, keeping first occurrences (JS `Set` order). -/
def uniqueFirst (l : List Nat) : List Nat := uniqueFirstAux [] l

/-- Ordering of product rows by id, used by the `ORDER BY product.id ASC`
clause of the lock query. -/
def idLe (p q : Product) : Prop := p.id ≤ q.id

instance : DecidableRel idLe := fun p q => inferInstanceAs (Decidable (p.id ≤ q.id))

instance : IsTotal Product idLe := ⟨fun p q => Nat.le_total p.id q.id⟩

instance : IsTrans Product idLe := ⟨fun _ _ _ => Nat.le_trans⟩

/-- Rows of the lock query in `ORDER BY product.id ASC` order. -/
def sortById (l : List Product) : List Product := List.insertionSort idLe l

/-- Step 3 of `createOrder`: the `SELECT ... WHERE product.id IN (:...ids)
ORDER BY product.id ASC` query with `setLock('pessimistic_write_or_fail')`.
The query touches exactly the rows whose id is in `uniqueIds`; if any of
them is already locked by another in-flight transaction (`locked`), the
`NOWAIT` clause makes the whole statement fail immediately instead of
waiting. -/
def acquireLocks (st : State) (locked : List Nat) (uniqueIds : List Nat) :
    Except OrderError (List Product) :=
  let matched := sortById (st.products.filter (fun p => uniqueIds.contains p.id))
  if matched.any (fun p => locked.contains p.id) then
    .error (.lockContention ((matched.filter (fun p => locked.contains p.id)).map (·.id)))
  else
    .ok matched

/-- In-memory mutation `product.stock -= item.quantity` on the
in-transaction product object with the given id (ids are unique, being the
primary key). -/
def updateStock (pm : List Product) (pid : Nat) (qty : Nat) : List Product :=
  pm.map (fun p => if p.id = pid then { p with stock := p.stock - (qty : Int) } else p)

/-- Steps 4-5 of `createOrder`: the `for (const item of dto.items)` loop.
For each line it looks the product up in the in-transaction map, throws
`NotFoundException` if absent, throws `ConflictException` when
`product.stock < item.quantity`, otherwise deducts the stock in memory and
materialises the order line with price snapshot
`product.price * item.quantity`, accumulating the total price. -/
def processItems (pm : List Product) :
    List CreateOrderItemDto → Except OrderError (List Product × List OrderItem × Int)
  | [] => .ok (pm, [], 0)
  | item :: rest =>
    match pm.find? (fun p => p.id == item.productId) with
    | none => .error (.notFoundProduct item.productId)
    | some product =>
      if product.stock < (item.quantity : Int) then
        .error (.insufficientStock product.name item.quantity product.stock)
      else
        match processItems (updateStock pm item.productId item.quantity) rest with
        | .error e => .error e
        | .ok (pmF, itemsF, totalF) =>
          .ok (pmF,
            { productId := item.productId, quantity := item.quantity,
              price := product.price * (item.quantity : Int) } :: itemsF,
            product.price * (item.quantity : Int) + totalF)

/-- Step 6: `queryRunner.manager.save(Product, products)` - writes the
mutated in-transaction rows back into the table, keyed by primary id. -/
def saveProducts (db updated : List Product) : List Product :=
  db.map (fun p => ((updated.find? (fun q => q.id == p.id)).getD p))

/-- The order insert of step 7, including the storage-level UNIQUE
constraint on `idempotencyKey` (`UQ_...` in the initial-schema migration):
inserting a second order with an already-present key fails with a raw
duplicate-key storage error. -/
def insertOrder (orders : List Order) (o : Order) : Except OrderError (List Order) :=
  if orders.any (fun e => e.idempotencyKey == o.idempotencyKey) then
    .error (.duplicateKey o.idempotencyKey)
  else
    .ok (orders ++ [o])

/-- Steps 4-8 of `createOrder`, entered once the lock query returned
`products`: the unique-id existence check, the stock/price loop, the
product write-back and the order insert.  `fault` optionally injects an
unexpected storage failure at the save step. -/
def afterLocks (st : State) (dto : CreateOrderDto) (fault : Option String)
    (uniqueIds : List Nat) (products : List Product) :
    Except OrderError (Order × State) :=
  if products.length = uniqueIds.length then
    match processItems products dto.items with
    | .error e => .error e
    | .ok (products2, orderItems, totalPrice) =>
      match fault with
      | some m => .error (.storageFault m)
      | none =>
        let order : Order :=
          { id := st.nextOrderId, userId := dto.userId, totalPrice := totalPrice,
            status := .confirmed, idempotencyKey := dto.idempotencyKey,
            createdAt := st.now, items := orderItems }
        match insertOrder st.orders order with
        | .error e => .error e
        | .ok orders2 =>
          .ok (order,
            { users := st.users, products := saveProducts st.products products2,
              orders := orders2, nextOrderId := st.nextOrderId + 1, now := st.now + 1 })
  else
    .error (.notFoundProducts
      (uniqueIds.filter (fun i => !((products.map (·.id)).contains i))))

/-- Steps 2-8 of `createOrder` (everything after the idempotency check),
wrapped in the try/catch/finally: any error rolls the unit of work back
(`committed` stays the initial state) and is rethrown unchanged, and the
query runner is released on every path. -/
def createOrderBody (st : State) (locked : List Nat) (dto : CreateOrderDto)
    (fault : Option String) : TxResult :=
  if dto.userId ∈ st.users then
    let uniqueIds := uniqueFirst (dto.items.map (·.productId))
    match acquireLocks st locked uniqueIds with
    | .error e => ⟨st, .error e, true, []⟩
    | .ok products =>
      match afterLocks st dto fault uniqueIds products with
      | .error e => ⟨st, .error e, true, products.map (·.id)⟩
      | .ok (o, st2) => ⟨st2, .ok o, true, products.map (·.id)⟩
  else ⟨st, .error (.notFoundUser dto.userId), true, []⟩

/-- The whole `createOrder` transaction: the idempotency check of step 1
(`findOne(Order, { where: { idempotencyKey } })`) returns the existing
order unchanged and commits; otherwise steps 2-8 run. -/
def createOrder (st : State) (locked : List Nat) (dto : CreateOrderDto)
    (fault : Option String) : TxResult :=
  match st.orders.find? (fun o => o.idempotencyKey == dto.idempotencyKey) with
  | some existing => ⟨st, .ok existing, true, []⟩
  | none => createOrderBody st locked dto fault

/-- Mirror of `OrdersService.findById`: look an order up by primary id. -/
def findById (st : State) (oid : Nat) : Option Order :=
  st.orders.find? (fun o => o.id == oid)

/-- A sequence of committed `createOrder` calls, each with its own
lock environment and optional injected fault; returns the final committed
state. -/
def runAll (st : State) : List (List Nat × CreateOrderDto × Option String) → State
  | [] => st
  | c :: cs => runAll (createOrder st c.1 c.2.1 c.2.2).committed cs

/-- Every product row has nonnegative stock. -/
def stocksNonneg (l : List Product) : Prop := ∀ p ∈ l, 0 ≤ p.stock

instance (l : List Product) : Decidable (stocksNonneg l) :=
  inferInstanceAs (Decidable (∀ p ∈ l, 0 ≤ p.stock))

/-- The id column of a product table. -/
def productIdsOf (l : List Product) : List Nat := l.map (·.id)

/-- Stock of the row with the given id (0 if absent). -/
def stockOf (l : List Product) (pid : Nat) : Int :=
  match l.find? (fun p => p.id == pid) with
  | some p => p.stock
  | none => 0

/-- Total quantity ordered for one product id across all lines of a
request. -/
def sumQty (pid : Nat) : List CreateOrderItemDto → Nat
  | [] => 0
  | it :: rest => (if it.productId = pid then it.quantity else 0) + sumQty pid rest

/-- Sum of the price snapshots of a list of order lines. -/
def sumPrices : List OrderItem → Int
  | [] => 0
  | it :: rest => it.price + sumPrices rest

end OrdersSpec


namespace OrdersSpec

/-- Membership in the deduplication accumulator run. -/
theorem mem_uniqueFirstAux {a : Nat} :
    ∀ {l seen : List Nat}, a ∈ uniqueFirstAux seen l ↔ a ∈ l ∧ a ∉ seen := by
  intro l
  induction l with
  | nil => intro seen; simp [uniqueFirstAux]
  | cons x xs ih =>
    intro seen
    by_cases hx : x ∈ seen
    · rw [uniqueFirstAux, if_pos hx, ih]
      constructor
      · rintro ⟨h1, h2⟩
        exact ⟨List.mem_cons_of_mem _ h1, h2⟩
      · rintro ⟨h1, h2⟩
        rcases List.mem_cons.mp h1 with rfl | h1
        · exact absurd hx h2
        · exact ⟨h1, h2⟩
    · rw [uniqueFirstAux, if_neg hx]
      constructor
      · intro hmem
        rcases List.mem_cons.mp hmem with rfl | hmem
        · exact ⟨List.mem_cons_self _ _, hx⟩
        · rcases ih.mp hmem with ⟨h1, h2⟩
          exact ⟨List.mem_cons_of_mem _ h1,
            fun hs => h2 (List.mem_cons_of_mem _ hs)⟩
      · rintro ⟨h1, h2⟩
        rcases List.mem_cons.mp h1 with rfl | h1
        · exact List.mem_cons_self _ _
        · by_cases hax : a = x
          · subst hax
            exact List.mem_cons_self _ _
          · refine List.mem_cons_of_mem _ (ih.mpr ⟨h1, fun hs => ?_⟩)
            rcases List.mem_cons.mp hs with h | h
            · exact hax h
            · exact h2 h

/-- An id is in the deduplicated list exactly when it is in the original. -/
theorem mem_uniqueFirst {a : Nat} {l : List Nat} : a ∈ uniqueFirst l ↔ a ∈ l := by
  rw [uniqueFirst, mem_uniqueFirstAux]
  simp

/-- The deduplicated list has no duplicates. -/
theorem nodup_uniqueFirstAux : ∀ (l seen : List Nat), (uniqueFirstAux seen l).Nodup := by
  intro l
  induction l with
  | nil => intro seen; simp [uniqueFirstAux]
  | cons x xs ih =>
    intro seen
    by_cases hx : x ∈ seen
    · rw [uniqueFirstAux, if_pos hx]; exact ih seen
    · rw [uniqueFirstAux, if_neg hx]
      refine List.nodup_cons.mpr ⟨fun hmem => ?_, ih (x :: seen)⟩
      exact (mem_uniqueFirstAux.mp hmem).2 (List.mem_cons_self _ _)

/-- The deduplicated list has no duplicates. -/
theorem nodup_uniqueFirst (l : List Nat) : (uniqueFirst l).Nodup :=
  nodup_uniqueFirstAux l []

/-- Characterisation of lookup-by-id over a table whose id column (the
primary key) has no duplicates. -/
theorem find?_id_eq_some {l : List Product} {pid : Nat} {q : Product}
    (hn : (productIdsOf l).Nodup) :
    l.find? (fun p => p.id == pid) = some q ↔ q ∈ l ∧ q.id = pid := by
  constructor
  · intro h
    refine ⟨List.mem_of_find?_eq_some h, ?_⟩
    have := List.find?_some h
    simpa using this
  · rintro ⟨hmem, rfl⟩
    induction l with
    | nil => cases hmem
    | cons x xs ih =>
      have hn' : (productIdsOf xs).Nodup := (List.nodup_cons.mp hn).2
      have hxid : x.id ∉ productIdsOf xs := (List.nodup_cons.mp hn).1
      rcases List.mem_cons.mp hmem with rfl | hmem'
      · simp [List.find?]
      · have hne : (x.id == q.id) = false := by
          refine beq_eq_false_iff_ne.mpr (fun hEq => hxid ?_)
          rw [hEq]
          exact List.mem_map.mpr ⟨q, hmem', rfl⟩
        rw [List.find?, hne]
        exact ih hn' hmem'

/-- Two rows of a duplicate-free table with the same id are the same row. -/
theorem eq_of_mem_of_id {l : List Product} {p q : Product}
    (hn : (productIdsOf l).Nodup) (hp : p ∈ l) (hq : q ∈ l) (h : p.id = q.id) :
    p = q := by
  have h1 : l.find? (fun r => r.id == q.id) = some p :=
    (find?_id_eq_some hn).mpr ⟨hp, h⟩
  have h2 : l.find? (fun r => r.id == q.id) = some q :=
    (find?_id_eq_some hn).mpr ⟨hq, rfl⟩
  exact Option.some.inj (h1 ▸ h2)

/-- The in-memory deduction never changes the id column. -/
theorem productIdsOf_updateStock (pm : List Product) (pid : Nat) (qty : Nat) :
    productIdsOf (updateStock pm pid qty) = productIdsOf pm := by
  unfold productIdsOf updateStock
  rw [List.map_map]
  refine List.map_congr_left (fun p _ => ?_)
  by_cases h : p.id = pid <;> simp [h]

/-- Lookup in the table after an in-memory deduction. -/
theorem find?_updateStock (pm : List Product) (pid qty pid2 : Nat) :
    (updateStock pm pid qty).find? (fun p => p.id == pid2) =
      (pm.find? (fun p => p.id == pid2)).map
        (fun p => if p.id = pid then { p with stock := p.stock - (qty : Int) } else p) := by
  unfold updateStock
  have hfun :
      ((fun p : Product => p.id == pid2) ∘ fun p =>
        if p.id = pid then { p with stock := p.stock - (qty : Int) } else p) =
        fun p : Product => p.id == pid2 := by
    funext p
    by_cases h : p.id = pid <;> simp [Function.comp, h]
  rw [List.find?_map, hfun]

/-- Stock column after an in-memory deduction: only the targeted row
changes, and only when it exists. -/
theorem stockOf_updateStock (pm : List Product) (pid qty pid2 : Nat) :
    stockOf (updateStock pm pid qty) pid2 =
      stockOf pm pid2 -
        (if pid2 = pid ∧ (pm.find? (fun p => p.id == pid2)).isSome then (qty : Int) else 0) := by
  unfold stockOf
  rw [find?_updateStock]
  cases h : pm.find? (fun p => p.id == pid2) with
  | none => simp
  | some p =>
    have hpid : p.id = pid2 := by simpa using List.find?_some h
    by_cases h2 : pid2 = pid
    · simp [Option.map_some, hpid, h2]
    · simp [Option.map_some, hpid, h2]

/-- The in-memory deduction keeps all stocks nonnegative when the checked
row had enough stock (ids are unique, so only that row is touched). -/
theorem stocksNonneg_updateStock {pm : List Product} {pid qty : Nat} {product : Product}
    (hn : (productIdsOf pm).Nodup) (h : stocksNonneg pm)
    (hf : pm.find? (fun p => p.id == pid) = some product)
    (hq : ¬ product.stock < (qty : Int)) :
    stocksNonneg (updateStock pm pid qty) := by
  intro x hx
  unfold updateStock at hx
  rcases List.mem_map.mp hx with ⟨p, hp, rfl⟩
  by_cases hid : p.id = pid
  · have hpq : p = product := by
      have hfm := (find?_id_eq_some hn).mp hf
      exact eq_of_mem_of_id hn hp hfm.1 (hid.trans hfm.2.symm)
    rw [if_pos hid, hpq]
    simp only
    omega
  · rw [if_neg hid]
    exact h p hp

/-- Successful runs of the stock loop keep every stock nonnegative (the
guard `product.stock < item.quantity` is checked before each deduction). -/
theorem processItems_nonneg :
    ∀ {items : List CreateOrderItemDto} {pm : List Product}
      {r : List Product × List OrderItem × Int},
      (productIdsOf pm).Nodup → stocksNonneg pm →
      processItems pm items = .ok r → stocksNonneg r.1 := by
  intro items
  induction items with
  | nil =>
    intro pm r _ h hr
    rw [processItems] at hr
    cases hr
    exact h
  | cons item rest ih =>
    intro pm r hn h hr
    rw [processItems] at hr
    cases hf : pm.find? (fun p => p.id == item.productId) with
    | none => simp only [hf] at hr; cases hr
    | some product =>
      simp only [hf] at hr
      by_cases hq : product.stock < (item.quantity : Int)
      · rw [if_pos hq] at hr; cases hr
      · rw [if_neg hq] at hr
        cases hrec : processItems (updateStock pm item.productId item.quantity) rest with
        | error e => simp only [hrec] at hr; cases hr
        | ok r2 =>
          simp only [hrec] at hr
          obtain ⟨pmF, itemsF, totalF⟩ := r2
          cases hr
          have hn2 : (productIdsOf (updateStock pm item.productId item.quantity)).Nodup := by
            rw [productIdsOf_updateStock]; exact hn
          have hres := ih hn2 (stocksNonneg_updateStock hn h hf hq) hrec
          simpa using hres

/-- An insufficient-stock error always reports a requested quantity that
exceeds the available stock. -/
theorem processItems_insufficient :
    ∀ {items : List CreateOrderItemDto} {pm : List Product} {n : String}
      {req : Nat} {avail : Int},
      processItems pm items = .error (.insufficientStock n req avail) →
      avail < (req : Int) := by
  intro items
  induction items with
  | nil =>
    intro pm n req avail hr
    rw [processItems] at hr
    cases hr
  | cons item rest ih =>
    intro pm n req avail hr
    rw [processItems] at hr
    cases hf : pm.find? (fun p => p.id == item.productId) with
    | none => simp only [hf] at hr; cases hr
    | some product =>
      simp only [hf] at hr
      by_cases hq : product.stock < (item.quantity : Int)
      · rw [if_pos hq] at hr
        cases hr
        exact hq
      · rw [if_neg hq] at hr
        cases hrec : processItems (updateStock pm item.productId item.quantity) rest with
        | error e =>
          simp only [hrec] at hr
          cases hr
          exact ih hrec
        | ok r2 =>
          simp only [hrec] at hr
          obtain ⟨pmF, itemsF, totalF⟩ := r2
          cases hr

/-- Every line of a successful run references a row of the in-transaction
table. -/
theorem processItems_refs :
    ∀ {items : List CreateOrderItemDto} {pm : List Product}
      {r : List Product × List OrderItem × Int},
      processItems pm items = .ok r →
      ∀ it ∈ items, ∃ p ∈ pm, p.id = it.productId := by
  intro items
  induction items with
  | nil =>
    intro pm r _ it hit
    cases hit
  | cons item rest ih =>
    intro pm r hr it hit
    rw [processItems] at hr
    cases hf : pm.find? (fun p => p.id == item.productId) with
    | none => simp only [hf] at hr; cases hr
    | some product =>
      simp only [hf] at hr
      by_cases hq : product.stock < (item.quantity : Int)
      · rw [if_pos hq] at hr; cases hr
      · rw [if_neg hq] at hr
        cases hrec : processItems (updateStock pm item.productId item.quantity) rest with
        | error e => simp only [hrec] at hr; cases hr
        | ok r2 =>
          simp only [hrec] at hr
          obtain ⟨pmF, itemsF, totalF⟩ := r2
          cases hr
          rcases List.mem_cons.mp hit with rfl | hit2
          · have := List.find?_some hf
            exact ⟨product, List.mem_of_find?_eq_some hf, by simpa using this⟩
          · rcases ih hrec it hit2 with ⟨p, hp, hpid⟩
            rcases List.mem_map.mp hp with ⟨p0, hp0, rfl⟩
            refine ⟨p0, hp0, ?_⟩
            rw [← hpid]
            by_cases h : p0.id = item.productId <;> simp [h]

/-- A product id no line references has zero total ordered quantity. -/
theorem sumQty_eq_zero {pid : Nat} :
    ∀ {items : List CreateOrderItemDto},
      (∀ it ∈ items, it.productId ≠ pid) → sumQty pid items = 0 := by
  intro items
  induction items with
  | nil => intro _; rfl
  | cons item rest ih =>
    intro h
    rw [sumQty, if_neg (h item (List.mem_cons_self _ _)), ih
      (fun it hit => h it (List.mem_cons_of_mem _ hit))]

/-- Stock bookkeeping of a successful run: per product id, the final
in-transaction stock is the initial stock minus the total ordered quantity
for that id, accumulated across all lines (also repeated ones). -/
theorem processItems_stockOf :
    ∀ {items : List CreateOrderItemDto} {pm : List Product}
      {r : List Product × List OrderItem × Int},
      (productIdsOf pm).Nodup →
      processItems pm items = .ok r →
      ∀ pid, stockOf r.1 pid = stockOf pm pid - (sumQty pid items : Int) := by
  intro items
  induction items with
  | nil =>
    intro pm r _ hr pid
    rw [processItems] at hr
    cases hr
    simp [sumQty]
  | cons item rest ih =>
    intro pm r hn hr pid
    rw [processItems] at hr
    cases hf : pm.find? (fun p => p.id == item.productId) with
    | none => simp only [hf] at hr; cases hr
    | some product =>
      simp only [hf] at hr
      by_cases hq : product.stock < (item.quantity : Int)
      · rw [if_pos hq] at hr; cases hr
      · rw [if_neg hq] at hr
        cases hrec : processItems (updateStock pm item.productId item.quantity) rest with
        | error e => simp only [hrec] at hr; cases hr
        | ok r2 =>
          simp only [hrec] at hr
          obtain ⟨pmF, itemsF, totalF⟩ := r2
          cases hr
          have hn2 : (productIdsOf (updateStock pm item.productId item.quantity)).Nodup := by
            rw [productIdsOf_updateStock]; exact hn
          have hrecQ := ih hn2 hrec pid
          simp only at hrecQ
          simp only
          rw [hrecQ, stockOf_updateStock, sumQty]
          by_cases hpid : pid = item.productId
          · subst hpid
            rw [if_pos ⟨rfl, by rw [hf]; rfl⟩, if_pos rfl]
            push_cast
            ring
          · rw [if_neg (fun hand => hpid hand.1),
              if_neg (fun hEq => hpid hEq.symm)]
            push_cast
            ring

/-- Price bookkeeping of a successful run: the accumulated total is the sum
of the produced lines, and each produced line carries the snapshot
`product.price * quantity` taken from the in-transaction table at loop
entry (deductions never change the price column, so the snapshot is the
price at order time even for repeated ids). -/
theorem processItems_prices :
    ∀ {items : List CreateOrderItemDto} {pm : List Product}
      {r : List Product × List OrderItem × Int},
      processItems pm items = .ok r →
      r.2.2 = sumPrices r.2.1 ∧
      ∀ it ∈ r.2.1, ∃ p, pm.find? (fun q => q.id == it.productId) = some p ∧
        it.price = p.price * (it.quantity : Int) := by
  intro items
  induction items with
  | nil =>
    intro pm r hr
    rw [processItems] at hr
    cases hr
    exact ⟨rfl, by intro it hit; cases hit⟩
  | cons item rest ih =>
    intro pm r hr
    rw [processItems] at hr
    cases hf : pm.find? (fun p => p.id == item.productId) with
    | none => simp only [hf] at hr; cases hr
    | some product =>
      simp only [hf] at hr
      by_cases hq : product.stock < (item.quantity : Int)
      · rw [if_pos hq] at hr; cases hr
      · rw [if_neg hq] at hr
        cases hrec : processItems (updateStock pm item.productId item.quantity) rest with
        | error e => simp only [hrec] at hr; cases hr
        | ok r2 =>
          simp only [hrec] at hr
          obtain ⟨pmF, itemsF, totalF⟩ := r2
          cases hr
          obtain ⟨ihTot, ihEach⟩ := ih hrec
          simp only at ihTot ihEach
          constructor
          · simp only [sumPrices, ihTot]
          · intro it hit
            rcases List.mem_cons.mp hit with rfl | hit2
            · exact ⟨product, hf, rfl⟩
            · rcases ihEach it hit2 with ⟨p2, hp2, hprice⟩
              rw [find?_updateStock] at hp2
              cases hp : pm.find? (fun q => q.id == it.productId) with
              | none => rw [hp] at hp2; cases hp2
              | some p0 =>
                rw [hp, Option.map_some'] at hp2
                refine ⟨p0, rfl, ?_⟩
                rw [hprice, ← Option.some.inj hp2]
                by_cases h : p0.id = item.productId <;> simp [h]

/-- Write-back never changes the id column. -/
theorem id_saveProducts_entry (upd : List Product) (p : Product) :
    ((upd.find? (fun q => q.id == p.id)).getD p).id = p.id := by
  cases h : upd.find? (fun q => q.id == p.id) with
  | none => rfl
  | some q => simpa using List.find?_some h

/-- Write-back keeps the table's id column unchanged. -/
theorem productIdsOf_saveProducts (db upd : List Product) :
    productIdsOf (saveProducts db upd) = productIdsOf db := by
  unfold productIdsOf saveProducts
  rw [List.map_map]
  exact List.map_congr_left (fun p _ => id_saveProducts_entry upd p)

/-- Stock column after write-back: rows present in the updated
in-transaction list take its value, all others keep theirs. -/
theorem stockOf_saveProducts (db upd : List Product) (pid : Nat) :
    stockOf (saveProducts db upd) pid =
      match db.find? (fun q => q.id == pid) with
      | none => 0
      | some p =>
        match upd.find? (fun q => q.id == pid) with
        | some q => q.stock
        | none => p.stock := by
  unfold stockOf saveProducts
  have hfun :
      ((fun p : Product => p.id == pid) ∘ fun p =>
        (upd.find? (fun q => q.id == p.id)).getD p) =
        fun p : Product => p.id == pid := by
    funext p
    have := id_saveProducts_entry upd p
    simp [Function.comp, this]
  rw [List.find?_map, hfun]
  cases h : db.find? (fun q => q.id == pid) with
  | none => rfl
  | some p =>
    have hpid : p.id = pid := by simpa using List.find?_some h
    simp only [Option.map_some', hpid]
    cases h2 : upd.find? (fun q => q.id == pid) with
    | none => simp [h2]
    | some q => simp [h2]

/-- Write-back preserves nonnegative stocks when both the table and the
updated rows are nonnegative. -/
theorem stocksNonneg_saveProducts {db upd : List Product}
    (hdb : stocksNonneg db) (hupd : stocksNonneg upd) :
    stocksNonneg (saveProducts db upd) := by
  intro x hx
  unfold saveProducts at hx
  rcases List.mem_map.mp hx with ⟨p, hp, rfl⟩
  cases h : upd.find? (fun q => q.id == p.id) with
  | none => simpa using hdb p hp
  | some q => simpa using hupd q (List.mem_of_find?_eq_some h)

/-- Sorting the lock query result is a permutation. -/
theorem mem_sortById {p : Product} {l : List Product} : p ∈ sortById l ↔ p ∈ l :=
  (List.perm_insertionSort idLe l).mem_iff

/-- Sorting preserves the length of the lock query result. -/
theorem length_sortById (l : List Product) : (sortById l).length = l.length :=
  (List.perm_insertionSort idLe l).length_eq

/-- The lock query result is sorted by ascending id. -/
theorem sorted_sortById (l : List Product) : (sortById l).Sorted idLe :=
  List.sorted_insertionSort idLe l

/-- Sorting preserves duplicate-freedom of the id column. -/
theorem nodup_productIdsOf_sortById {l : List Product}
    (hn : (productIdsOf l).Nodup) : (productIdsOf (sortById l)).Nodup := by
  unfold productIdsOf at hn ⊢
  exact ((List.perm_insertionSort idLe l).map (·.id)).nodup_iff.mpr hn

/-- Filtering preserves duplicate-freedom of the id column. -/
theorem nodup_productIdsOf_filter {l : List Product} (P : Product → Bool)
    (hn : (productIdsOf l).Nodup) : (productIdsOf (l.filter P)).Nodup := by
  unfold productIdsOf at hn ⊢
  exact ((List.filter_sublist l).map (·.id)).nodup hn

/-- The id column of a filter by an id predicate. -/
theorem productIdsOf_filter_comm (db : List Product) (q : Nat → Bool) :
    productIdsOf (db.filter (fun p => q p.id)) = (productIdsOf db).filter q := by
  induction db with
  | nil => rfl
  | cons p rest ih =>
    unfold productIdsOf at ih ⊢
    by_cases h : q p.id = true <;> simp [List.filter_cons, h, ih]

/-- Two duplicate-free id lists with the same members have the same length
once one filters the other. -/
theorem length_filter_nodup {A u : List Nat} (hA : A.Nodup) (hu : u.Nodup)
    (hsub : ∀ i ∈ u, i ∈ A) :
    (A.filter (fun i => u.contains i)).length = u.length := by
  have hperm : (A.filter (fun i => u.contains i)).Perm u := by
    apply List.perm_of_nodup_nodup_toFinset_eq (hA.filter _) hu
    ext i
    simp only [List.mem_toFinset, List.mem_filter, List.elem_iff]
    constructor
    · rintro ⟨_, h2⟩
      exact h2
    · intro h
      exact ⟨hsub i h, h⟩
  exact hperm.length_eq

/-- When every requested id exists in the table, the lock query returns
exactly one row per distinct requested id. -/
theorem length_matched_of_all_present {db : List Product} {u : List Nat}
    (hdb : (productIdsOf db).Nodup) (hu : u.Nodup)
    (hall : ∀ i ∈ u, ∃ p ∈ db, p.id = i) :
    (sortById (db.filter (fun p => u.contains p.id))).length = u.length := by
  rw [length_sortById]
  have hlen : (db.filter (fun p => u.contains p.id)).length =
      (productIdsOf (db.filter (fun p => u.contains p.id))).length := by
    unfold productIdsOf
    rw [List.length_map]
  rw [hlen, productIdsOf_filter_comm]
  apply length_filter_nodup hdb hu
  intro i hi
  rcases hall i hi with ⟨p, hp, rfl⟩
  exact List.mem_map.mpr ⟨p, hp, rfl⟩

/-- Inversion of a successful lock acquisition: the returned rows are the
sorted filtered table and none of them was locked by another transaction. -/
theorem acquireLocks_ok_inv {st : State} {locked u : List Nat} {prods : List Product}
    (h : acquireLocks st locked u = .ok prods) :
    prods = sortById (st.products.filter (fun p => u.contains p.id)) ∧
    ∀ p ∈ prods, locked.contains p.id = false := by
  unfold acquireLocks at h
  by_cases hA : (sortById (st.products.filter (fun p => u.contains p.id))).any
      (fun p => locked.contains p.id)
  · rw [if_pos hA] at h
    cases h
  · rw [if_neg hA] at h
    cases h
    refine ⟨rfl, fun p hp => ?_⟩
    by_contra hc
    have : locked.contains p.id = true := by
      cases hb : locked.contains p.id
      · exact absurd hb hc
      · rfl
    exact hA (List.any_eq_true.mpr ⟨p, hp, this⟩)

/-- Inversion of a successful `createOrderBody` run: the user existed, no
fault was injected, the lock query, the stock loop and the order insert all
succeeded, and the returned order and committed state have the shape built
at steps 5-8. -/
theorem createOrderBody_ok_inv {st : State} {locked : List Nat} {dto : CreateOrderDto}
    {fault : Option String} {o : Order}
    (h : (createOrderBody st locked dto fault).response = .ok o) :
    dto.userId ∈ st.users ∧ fault = none ∧
    st.orders.any (fun e => e.idempotencyKey == dto.idempotencyKey) = false ∧
    ∃ prods products2 orderItems totalPrice,
      acquireLocks st locked (uniqueFirst (dto.items.map (·.productId))) = .ok prods ∧
      prods.length = (uniqueFirst (dto.items.map (·.productId))).length ∧
      processItems prods dto.items = .ok (products2, orderItems, totalPrice) ∧
      o = ⟨st.nextOrderId, dto.userId, totalPrice, .confirmed, dto.idempotencyKey,
        st.now, orderItems⟩ ∧
      createOrderBody st locked dto fault =
        ⟨⟨st.users, saveProducts st.products products2, st.orders ++ [o],
          st.nextOrderId + 1, st.now + 1⟩, .ok o, true, prods.map (·.id)⟩ := by
  unfold createOrderBody at h
  by_cases huser : dto.userId ∈ st.users
  · rw [if_pos huser] at h
    cases hA : acquireLocks st locked (uniqueFirst (dto.items.map (·.productId))) with
    | error e =>
      simp only [hA] at h
      cases h
    | ok prods =>
      simp only [hA] at h
      cases hAL : afterLocks st dto fault (uniqueFirst (dto.items.map (·.productId))) prods with
      | error e =>
        simp only [hAL] at h
        cases h
      | ok pair =>
        obtain ⟨o2, st2⟩ := pair
        simp only [hAL] at h
        cases h
        unfold afterLocks at hAL
        by_cases hlen : prods.length = (uniqueFirst (dto.items.map (·.productId))).length
        · rw [if_pos hlen] at hAL
          cases hPI : processItems prods dto.items with
          | error e =>
            simp only [hPI] at hAL
            cases hAL
          | ok triple =>
            obtain ⟨products2, orderItems, totalPrice⟩ := triple
            simp only [hPI] at hAL
            cases fault with
            | some m =>
              simp only at hAL
              cases hAL
            | none =>
              simp only at hAL
              cases hIns : insertOrder st.orders
                  ⟨st.nextOrderId, dto.userId, totalPrice, .confirmed,
                    dto.idempotencyKey, st.now, orderItems⟩ with
              | error e =>
                simp only [hIns] at hAL
                cases hAL
              | ok orders2 =>
                simp only [hIns] at hAL
                cases hAL
                have hIns0 := hIns
                unfold insertOrder at hIns0
                by_cases hAny : st.orders.any
                    (fun e => e.idempotencyKey == dto.idempotencyKey) = true
                · rw [if_pos hAny] at hIns0
                  cases hIns0
                · rw [if_neg hAny] at hIns0
                  cases hIns0
                  have hfalse : st.orders.any
                      (fun e => e.idempotencyKey == dto.idempotencyKey) = false := by
                    cases hb : st.orders.any (fun e => e.idempotencyKey == dto.idempotencyKey)
                    · rfl
                    · exact absurd hb hAny
                  refine ⟨huser, rfl, hfalse,
                    prods, products2, orderItems, totalPrice, rfl, hlen, hPI, rfl, ?_⟩
                  unfold createOrderBody
                  rw [if_pos huser]
                  simp only [hA]
                  unfold afterLocks
                  rw [if_pos hlen]
                  simp only [hPI, hIns]
        · rw [if_neg hlen] at hAL
          cases hAL
  · rw [if_neg huser] at h
    cases h

/-- Any failing `createOrderBody` run rolls the unit of work back: the
committed state is the initial one. -/
theorem createOrderBody_error_committed {st : State} {locked : List Nat}
    {dto : CreateOrderDto} {fault : Option String} {e : OrderError}
    (h : (createOrderBody st locked dto fault).response = .error e) :
    (createOrderBody st locked dto fault).committed = st := by
  unfold createOrderBody at h ⊢
  by_cases huser : dto.userId ∈ st.users
  · rw [if_pos huser] at h ⊢
    cases hA : acquireLocks st locked (uniqueFirst (dto.items.map (·.productId))) with
    | error e2 => simp only [hA]
    | ok prods =>
      simp only [hA] at h ⊢
      cases hAL : afterLocks st dto fault (uniqueFirst (dto.items.map (·.productId))) prods with
      | error e2 => simp only [hAL]
      | ok pair =>
        obtain ⟨o2, st2⟩ := pair
        simp only [hAL] at h
        cases h
  · rw [if_neg huser]

/-- The query runner is released on every path of `createOrderBody`. -/
theorem createOrderBody_released (st : State) (locked : List Nat)
    (dto : CreateOrderDto) (fault : Option String) :
    (createOrderBody st locked dto fault).released = true := by
  unfold createOrderBody
  by_cases huser : dto.userId ∈ st.users
  · rw [if_pos huser]
    dsimp only
    cases hA : acquireLocks st locked (uniqueFirst (dto.items.map (·.productId))) with
    | error e => rfl
    | ok prods =>
      cases hAL : afterLocks st dto fault (uniqueFirst (dto.items.map (·.productId))) prods with
      | error e => simp only [hAL]
      | ok pair =>
        obtain ⟨o2, st2⟩ := pair
        simp only [hAL]
  · rw [if_neg huser]

/-- The idempotency hit of step 1: the existing order is returned
unchanged, the transaction commits without touching anything, and no lock
is taken. -/
theorem createOrder_hit {st : State} {locked : List Nat} {dto : CreateOrderDto}
    {fault : Option String} {existing : Order}
    (h : st.orders.find? (fun o => o.idempotencyKey == dto.idempotencyKey) = some existing) :
    createOrder st locked dto fault = ⟨st, .ok existing, true, []⟩ := by
  unfold createOrder
  rw [h]

/-- When no order carries the key yet, `createOrder` runs steps 2-8. -/
theorem createOrder_miss {st : State} {locked : List Nat} {dto : CreateOrderDto}
    {fault : Option String}
    (h : st.orders.find? (fun o => o.idempotencyKey == dto.idempotencyKey) = none) :
    createOrder st locked dto fault = createOrderBody st locked dto fault := by
  unfold createOrder
  rw [h]

/-- Bool-membership bridge for `List.contains` on ids. -/
theorem contains_of_mem {l : List Nat} {a : Nat} (h : a ∈ l) : l.contains a = true := by
  simpa using h

/-- Bool-membership bridge for `List.contains` on ids. -/
theorem mem_of_contains {l : List Nat} {a : Nat} (h : l.contains a = true) : a ∈ l := by
  simpa using h

/-- A failed id lookup means the id is absent from the table. -/
theorem find?_id_eq_none {l : List Product} {pid : Nat} :
    l.find? (fun p => p.id == pid) = none ↔ pid ∉ productIdsOf l := by
  rw [List.find?_eq_none]
  constructor
  · intro h hmem
    rcases List.mem_map.mp hmem with ⟨p, hp, rfl⟩
    exact h p hp (by simp)
  · intro h p hp hbeq
    exact h (List.mem_map.mpr ⟨p, hp, by simpa using hbeq⟩)

/-- The stock loop never changes the id column of the in-transaction
table. -/
theorem processItems_ids :
    ∀ {items : List CreateOrderItemDto} {pm : List Product}
      {r : List Product × List OrderItem × Int},
      processItems pm items = .ok r → productIdsOf r.1 = productIdsOf pm := by
  intro items
  induction items with
  | nil =>
    intro pm r hr
    rw [processItems] at hr
    cases hr
    rfl
  | cons item rest ih =>
    intro pm r hr
    rw [processItems] at hr
    cases hf : pm.find? (fun p => p.id == item.productId) with
    | none => simp only [hf] at hr; cases hr
    | some product =>
      simp only [hf] at hr
      by_cases hq : product.stock < (item.quantity : Int)
      · rw [if_pos hq] at hr; cases hr
      · rw [if_neg hq] at hr
        cases hrec : processItems (updateStock pm item.productId item.quantity) rest with
        | error e => simp only [hrec] at hr; cases hr
        | ok r2 =>
          simp only [hrec] at hr
          obtain ⟨pmF, itemsF, totalF⟩ := r2
          cases hr
          have := ih hrec
          simp only at this
          rw [this, productIdsOf_updateStock]

/-- A failed lock acquisition always reports lock contention. -/
theorem acquireLocks_error_inv {st : State} {locked u : List Nat} {e : OrderError}
    (h : acquireLocks st locked u = .error e) : ∃ ids, e = .lockContention ids := by
  unfold acquireLocks at h
  by_cases hA : (sortById (st.products.filter (fun p => u.contains p.id))).any
      (fun p => locked.contains p.id)
  · rw [if_pos hA] at h
    cases h
    exact ⟨_, rfl⟩
  · rw [if_neg hA] at h
    cases h

/-- Classification of every error a `createOrderBody` run can report. -/
theorem createOrderBody_error_inv {st : State} {locked : List Nat} {dto : CreateOrderDto}
    {fault : Option String} {e : OrderError}
    (h : (createOrderBody st locked dto fault).response = .error e) :
    (∃ uid, e = .notFoundUser uid) ∨ (∃ ids, e = .lockContention ids) ∨
    (∃ ids, e = .notFoundProducts ids) ∨
    (∃ prods, acquireLocks st locked (uniqueFirst (dto.items.map (·.productId))) = .ok prods ∧
      processItems prods dto.items = .error e) ∨
    (∃ m, e = .storageFault m) ∨ (∃ k, e = .duplicateKey k) := by
  unfold createOrderBody at h
  by_cases huser : dto.userId ∈ st.users
  · rw [if_pos huser] at h
    cases hA : acquireLocks st locked (uniqueFirst (dto.items.map (·.productId))) with
    | error e2 =>
      simp only [hA] at h
      cases h
      rcases acquireLocks_error_inv hA with ⟨ids, rfl⟩
      exact Or.inr (Or.inl ⟨ids, rfl⟩)
    | ok prods =>
      simp only [hA] at h
      cases hAL : afterLocks st dto fault (uniqueFirst (dto.items.map (·.productId))) prods with
      | ok pair =>
        obtain ⟨o2, st2⟩ := pair
        simp only [hAL] at h
        cases h
      | error e2 =>
        simp only [hAL] at h
        cases h
        unfold afterLocks at hAL
        by_cases hlen : prods.length = (uniqueFirst (dto.items.map (·.productId))).length
        · rw [if_pos hlen] at hAL
          cases hPI : processItems prods dto.items with
          | error e3 =>
            simp only [hPI] at hAL
            cases hAL
            exact Or.inr (Or.inr (Or.inr (Or.inl ⟨prods, rfl, hPI⟩)))
          | ok triple =>
            obtain ⟨products2, orderItems, totalPrice⟩ := triple
            simp only [hPI] at hAL
            cases fault with
            | some m =>
              simp only at hAL
              cases hAL
              exact Or.inr (Or.inr (Or.inr (Or.inr (Or.inl ⟨m, rfl⟩))))
            | none =>
              simp only at hAL
              cases hIns : insertOrder st.orders
                  ⟨st.nextOrderId, dto.userId, totalPrice, .confirmed,
                    dto.idempotencyKey, st.now, orderItems⟩ with
              | ok orders2 =>
                simp only [hIns] at hAL
                cases hAL
              | error e4 =>
                simp only [hIns] at hAL
                cases hAL
                unfold insertOrder at hIns
                by_cases hAny : st.orders.any
                    (fun q => q.idempotencyKey == dto.idempotencyKey) = true
                · rw [if_pos hAny] at hIns
                  cases hIns
                  exact Or.inr (Or.inr (Or.inr (Or.inr (Or.inr ⟨_, rfl⟩))))
                · rw [if_neg hAny] at hIns
                  cases hIns
        · rw [if_neg hlen] at hAL
          cases hAL
          exact Or.inr (Or.inr (Or.inl ⟨_, rfl⟩))
  · rw [if_neg huser] at h
    cases h
    exact Or.inl ⟨_, rfl⟩

/-- Whenever the lock query succeeds, the call's lock trace is exactly the
id column of the rows it returned, whatever happens later. -/
theorem createOrderBody_lockedIds {st : State} {locked : List Nat} {dto : CreateOrderDto}
    {fault : Option String} {prods : List Product}
    (huser : dto.userId ∈ st.users)
    (hA : acquireLocks st locked (uniqueFirst (dto.items.map (·.productId))) = .ok prods) :
    (createOrderBody st locked dto fault).lockedIds = prods.map (·.id) := by
  unfold createOrderBody
  rw [if_pos huser]
  simp only [hA]
  cases hAL : afterLocks st dto fault (uniqueFirst (dto.items.map (·.productId))) prods with
  | error e => simp only [hAL]
  | ok pair =>
    obtain ⟨o2, st2⟩ := pair
    simp only [hAL]

/-- A failed lock query aborts the run immediately: the contention error is
reported, nothing is committed and no lock is held. -/
theorem createOrderBody_contention {st : State} {locked : List Nat} {dto : CreateOrderDto}
    {fault : Option String} {e : OrderError}
    (huser : dto.userId ∈ st.users)
    (hA : acquireLocks st locked (uniqueFirst (dto.items.map (·.productId))) = .error e) :
    createOrderBody st locked dto fault = ⟨st, .error e, true, []⟩ := by
  unfold createOrderBody
  rw [if_pos huser]
  simp only [hA]

/-- One `createOrder` call never changes the id column of the product
table (write-back updates rows in place, rollback restores the initial
state). -/
theorem createOrder_committed_productIds (st : State) (locked : List Nat)
    (dto : CreateOrderDto) (fault : Option String) :
    productIdsOf (createOrder st locked dto fault).committed.products =
      productIdsOf st.products := by
  cases hF : st.orders.find? (fun o => o.idempotencyKey == dto.idempotencyKey) with
  | some existing => rw [createOrder_hit hF]
  | none =>
    rw [createOrder_miss hF]
    cases hR : (createOrderBody st locked dto fault).response with
    | error e => rw [createOrderBody_error_committed hR]
    | ok o =>
      obtain ⟨_, _, _, prods, products2, orderItems, totalPrice, _, _, _, _, hbody⟩ :=
        createOrderBody_ok_inv hR
      rw [hbody]
      exact productIdsOf_saveProducts _ _

/-- One `createOrder` call keeps every committed stock nonnegative. -/
theorem createOrder_committed_nonneg (st : State) (locked : List Nat)
    (dto : CreateOrderDto) (fault : Option String)
    (hids : (productIdsOf st.products).Nodup) (h : stocksNonneg st.products) :
    stocksNonneg (createOrder st locked dto fault).committed.products := by
  cases hF : st.orders.find? (fun o => o.idempotencyKey == dto.idempotencyKey) with
  | some existing => rw [createOrder_hit hF]; exact h
  | none =>
    rw [createOrder_miss hF]
    cases hR : (createOrderBody st locked dto fault).response with
    | error e => rw [createOrderBody_error_committed hR]; exact h
    | ok o =>
      obtain ⟨_, _, _, prods, products2, orderItems, totalPrice, hA, _, hPI, _, hbody⟩ :=
        createOrderBody_ok_inv hR
      rw [hbody]
      obtain ⟨hprods, _⟩ := acquireLocks_ok_inv hA
      have hsub : ∀ p ∈ prods, p ∈ st.products := by
        intro p hp
        rw [hprods] at hp
        exact (List.mem_filter.mp (mem_sortById.mp hp)).1
      have hprodsNodup : (productIdsOf prods).Nodup := by
        rw [hprods]
        exact nodup_productIdsOf_sortById (nodup_productIdsOf_filter _ hids)
      have hprodsNonneg : stocksNonneg prods := fun p hp => h p (hsub p hp)
      have h2 : stocksNonneg products2 := by
        have := processItems_nonneg hprodsNodup hprodsNonneg hPI
        simpa using this
      exact stocksNonneg_saveProducts h h2

/-- Any run of committed `createOrder` calls preserves both table
invariants: unique ids and nonnegative stocks. -/
theorem runAll_preserved :
    ∀ (calls : List (List Nat × CreateOrderDto × Option String)) (st : State),
      (productIdsOf st.products).Nodup → stocksNonneg st.products →
      (productIdsOf (runAll st calls).products).Nodup ∧
      stocksNonneg (runAll st calls).products := by
  intro calls
  induction calls with
  | nil => intro st hids h; exact ⟨hids, h⟩
  | cons c cs ih =>
    intro st hids h
    rw [runAll]
    refine ih _ ?_ ?_
    · rw [createOrder_committed_productIds]; exact hids
    · exact createOrder_committed_nonneg _ _ _ _ hids h

/-- C1: starting from a table with unique ids and nonnegative stocks,
every committed state reachable through any sequence of `createOrder`
calls keeps all stocks nonnegative; a line whose quantity exceeds the
current in-transaction stock makes the call fail with the conflict error
naming the item's name and the requested vs available quantities (with
requested > available), raised before the deduction for that line; and the
in-transaction table after any executed prefix of the stock loop also has
only nonnegative stocks. -/
theorem createOrder_stock_never_negative (st : State)
    (calls : List (List Nat × CreateOrderDto × Option String))
    (hids : (productIdsOf st.products).Nodup) (h : stocksNonneg st.products) :
    stocksNonneg (runAll st calls).products ∧
    (∀ (locked : List Nat) (dto : CreateOrderDto) (fault : Option String)
      (n : String) (req : Nat) (avail : Int),
      (createOrder st locked dto fault).response = .error (.insufficientStock n req avail) →
      avail < (req : Int)) ∧
    (∀ (pm : List Product) (items : List CreateOrderItemDto)
      (r : List Product × List OrderItem × Int),
      (productIdsOf pm).Nodup → stocksNonneg pm →
      processItems pm items = .ok r → stocksNonneg r.1) := by
  refine ⟨(runAll_preserved calls st hids h).2, ?_, ?_⟩
  · intro locked dto fault n req avail hE
    cases hF : st.orders.find? (fun o => o.idempotencyKey == dto.idempotencyKey) with
    | some existing =>
      rw [createOrder_hit hF] at hE
      cases hE
    | none =>
      rw [createOrder_miss hF] at hE
      rcases createOrderBody_error_inv hE with
        ⟨uid, hc⟩ | ⟨ids, hc⟩ | ⟨ids, hc⟩ | ⟨prods, _, hPI⟩ | ⟨m, hc⟩ | ⟨k, hc⟩
      · cases hc
      · cases hc
      · cases hc
      · exact processItems_insufficient hPI
      · cases hc
      · cases hc
  · intro pm items r hn hnn hr
    exact processItems_nonneg hn hnn hr

/-- Witness for C1 at a concrete table and call sequence (the second call
fails on insufficient stock, the first succeeds). -/
theorem createOrder_stock_never_negative_witness :
    stocksNonneg (runAll ⟨[7], [⟨1, "w", 5, 3⟩], [], 100, 50⟩
      [([], ⟨7, [⟨1, 2⟩], "a"⟩, none), ([], ⟨7, [⟨1, 2⟩], "b"⟩, none)]).products ∧
    (∀ (locked : List Nat) (dto : CreateOrderDto) (fault : Option String)
      (n : String) (req : Nat) (avail : Int),
      (createOrder ⟨[7], [⟨1, "w", 5, 3⟩], [], 100, 50⟩ locked dto fault).response =
        .error (.insufficientStock n req avail) →
      avail < (req : Int)) ∧
    (∀ (pm : List Product) (items : List CreateOrderItemDto)
      (r : List Product × List OrderItem × Int),
      (productIdsOf pm).Nodup → stocksNonneg pm →
      processItems pm items = .ok r → stocksNonneg r.1) :=
  createOrder_stock_never_negative ⟨[7], [⟨1, "w", 5, 3⟩], [], 100, 50⟩
    [([], ⟨7, [⟨1, 2⟩], "a"⟩, none), ([], ⟨7, [⟨1, 2⟩], "b"⟩, none)]
    (by decide) (by decide)

/-- C5: the query runner is released on every path of every `createOrder`
call, and every failing call (unknown account, missing items, insufficient
stock, lock contention, duplicate key or injected storage fault) commits
nothing: the state visible afterwards is exactly the initial one, and the
reported error is the original one rethrown. -/
theorem createOrder_rollback_and_release (st : State) (locked : List Nat)
    (dto : CreateOrderDto) (fault : Option String) :
    (createOrder st locked dto fault).released = true ∧
    (∀ e, (createOrder st locked dto fault).response = .error e →
      (createOrder st locked dto fault).committed = st) := by
  cases hF : st.orders.find? (fun o => o.idempotencyKey == dto.idempotencyKey) with
  | some existing =>
    rw [createOrder_hit hF]
    exact ⟨rfl, fun e he => by cases he⟩
  | none =>
    rw [createOrder_miss hF]
    exact ⟨createOrderBody_released st locked dto fault,
      fun e he => createOrderBody_error_committed he⟩

/-- Witness for C5 at a failing concrete call (unknown user id). -/
theorem createOrder_rollback_and_release_witness :
    (createOrder ⟨[7], [⟨1, "w", 5, 3⟩], [], 100, 50⟩ [] ⟨9, [⟨1, 1⟩], "k"⟩ none).released
      = true ∧
    (createOrder ⟨[7], [⟨1, "w", 5, 3⟩], [], 100, 50⟩ [] ⟨9, [⟨1, 1⟩], "k"⟩ none).committed
      = ⟨[7], [⟨1, "w", 5, 3⟩], [], 100, 50⟩ :=
  ⟨(createOrder_rollback_and_release ⟨[7], [⟨1, "w", 5, 3⟩], [], 100, 50⟩ []
      ⟨9, [⟨1, 1⟩], "k"⟩ none).1,
   (createOrder_rollback_and_release ⟨[7], [⟨1, "w", 5, 3⟩], [], 100, 50⟩ []
      ⟨9, [⟨1, 1⟩], "k"⟩ none).2 (.notFoundUser 9) (by decide)⟩

/-- C2: after any successful `createOrder`, re-running the same request
(same idempotency key) against the committed state returns the very same
order, commits nothing new, acquires no lock, and is insensitive to the
lock environment and to injected storage faults - so inventory is deducted
exactly once, not once per call. -/
theorem createOrder_idempotent_retry (st : State) (lk lk2 : List Nat)
    (dto : CreateOrderDto) (fault2 : Option String) (o1 : Order)
    (h : (createOrder st lk dto none).response = .ok o1) :
    createOrder (createOrder st lk dto none).committed lk2 dto fault2 =
      ⟨(createOrder st lk dto none).committed, .ok o1, true, []⟩ := by
  cases hF : st.orders.find? (fun o => o.idempotencyKey == dto.idempotencyKey) with
  | some existing =>
    rw [createOrder_hit hF] at h ⊢
    cases h
    exact createOrder_hit hF
  | none =>
    rw [createOrder_miss hF] at h ⊢
    obtain ⟨_, _, _, prods, products2, orderItems, totalPrice, _, _, _, ho, hbody⟩ :=
      createOrderBody_ok_inv h
    rw [hbody]
    apply createOrder_hit
    simp only
    rw [List.find?_append, hF]
    simp [ho]

/-- Witness for C2 at a concrete successful first call. -/
theorem createOrder_idempotent_retry_witness :
    createOrder (createOrder ⟨[7], [⟨1, "w", 5, 3⟩], [], 100, 50⟩ []
        ⟨7, [⟨1, 2⟩], "k"⟩ none).committed [1] ⟨7, [⟨1, 2⟩], "k"⟩ (some "boom") =
      ⟨(createOrder ⟨[7], [⟨1, "w", 5, 3⟩], [], 100, 50⟩ []
        ⟨7, [⟨1, 2⟩], "k"⟩ none).committed,
       .ok ⟨100, 7, 10, .confirmed, "k", 50, [⟨1, 2, 10⟩]⟩, true, []⟩ :=
  createOrder_idempotent_retry ⟨[7], [⟨1, "w", 5, 3⟩], [], 100, 50⟩ [] [1]
    ⟨7, [⟨1, 2⟩], "k"⟩ (some "boom") ⟨100, 7, 10, .confirmed, "k", 50, [⟨1, 2, 10⟩]⟩
    (by decide)

/-- C10: when an order with the request's idempotency key already exists,
`createOrder` returns that stored order for any payload carrying the key -
the stored payload is never compared with the retried one, so a mismatched
retry (different user id or different lines) silently succeeds with the
earlier order. -/
theorem createOrder_idempotent_ignores_payload (st : State) (lk1 lk2 : List Nat)
    (f1 f2 : Option String) (d1 d2 : CreateOrderDto) (o : Order)
    (hkey : d1.idempotencyKey = d2.idempotencyKey)
    (hex : st.orders.find? (fun q => q.idempotencyKey == d1.idempotencyKey) = some o) :
    createOrder st lk1 d1 f1 = ⟨st, .ok o, true, []⟩ ∧
    createOrder st lk2 d2 f2 = ⟨st, .ok o, true, []⟩ := by
  refine ⟨createOrder_hit hex, ?_⟩
  apply createOrder_hit
  rw [← hkey]
  exact hex

/-- Witness for C10: a retry with a different user and different lines
still returns the stored order. -/
theorem createOrder_idempotent_ignores_payload_witness :
    createOrder ⟨[7, 8], [⟨1, "w", 5, 3⟩], [⟨100, 7, 10, .confirmed, "k", 50, [⟨1, 2, 10⟩]⟩],
        101, 51⟩ [] ⟨7, [⟨1, 2⟩], "k"⟩ none =
      ⟨⟨[7, 8], [⟨1, "w", 5, 3⟩], [⟨100, 7, 10, .confirmed, "k", 50, [⟨1, 2, 10⟩]⟩], 101, 51⟩,
       .ok ⟨100, 7, 10, .confirmed, "k", 50, [⟨1, 2, 10⟩]⟩, true, []⟩ ∧
    createOrder ⟨[7, 8], [⟨1, "w", 5, 3⟩], [⟨100, 7, 10, .confirmed, "k", 50, [⟨1, 2, 10⟩]⟩],
        101, 51⟩ [1] ⟨8, [⟨1, 1⟩, ⟨2, 9⟩], "k"⟩ (some "boom") =
      ⟨⟨[7, 8], [⟨1, "w", 5, 3⟩], [⟨100, 7, 10, .confirmed, "k", 50, [⟨1, 2, 10⟩]⟩], 101, 51⟩,
       .ok ⟨100, 7, 10, .confirmed, "k", 50, [⟨1, 2, 10⟩]⟩, true, []⟩ :=
  createOrder_idempotent_ignores_payload
    ⟨[7, 8], [⟨1, "w", 5, 3⟩], [⟨100, 7, 10, .confirmed, "k", 50, [⟨1, 2, 10⟩]⟩], 101, 51⟩
    [] [1] none (some "boom") ⟨7, [⟨1, 2⟩], "k"⟩ ⟨8, [⟨1, 1⟩, ⟨2, 9⟩], "k"⟩
    ⟨100, 7, 10, .confirmed, "k", 50, [⟨1, 2, 10⟩]⟩ (by decide) (by decide)

/-- C3: on a fresh successful `createOrder` (key not seen before), the
committed stock of every product id equals its previous stock minus the
sum of the quantities over all lines referencing that id - repeated ids
deduct cumulatively, once per unit ordered, because every line's deduction
hits the same in-transaction row. -/
theorem createOrder_cumulative_deduction (st : State) (lk : List Nat)
    (dto : CreateOrderDto) (o : Order)
    (hids : (productIdsOf st.products).Nodup)
    (hkey : st.orders.find? (fun q => q.idempotencyKey == dto.idempotencyKey) = none)
    (hok : (createOrder st lk dto none).response = .ok o) :
    ∀ pid, stockOf (createOrder st lk dto none).committed.products pid =
      stockOf st.products pid - (sumQty pid dto.items : Int) := by
  rw [createOrder_miss hkey] at hok ⊢
  obtain ⟨_, _, _, prods, products2, orderItems, totalPrice, hA, _, hPI, _, hbody⟩ :=
    createOrderBody_ok_inv hok
  rw [hbody]
  intro pid
  obtain ⟨hprods, _⟩ := acquireLocks_ok_inv hA
  have hprodsNodup : (productIdsOf prods).Nodup := by
    rw [hprods]
    exact nodup_productIdsOf_sortById (nodup_productIdsOf_filter _ hids)
  have hstockPI := processItems_stockOf hprodsNodup hPI pid
  simp only at hstockPI
  have hidsP2 : productIdsOf products2 = productIdsOf prods := by
    have := processItems_ids hPI
    simpa using this
  have hsub : ∀ p ∈ prods, p ∈ st.products := by
    intro p hp
    rw [hprods] at hp
    exact (List.mem_filter.mp (mem_sortById.mp hp)).1
  show stockOf (saveProducts st.products products2) pid = _
  rw [stockOf_saveProducts]
  cases hdb : st.products.find? (fun q => q.id == pid) with
  | none =>
    have hnot : pid ∉ productIdsOf st.products := find?_id_eq_none.mp hdb
    have hz : sumQty pid dto.items = 0 := by
      apply sumQty_eq_zero
      intro it hit hEq
      rcases processItems_refs hPI it hit with ⟨p, hp, hpid⟩
      exact hnot (List.mem_map.mpr ⟨p, hsub p hp, by rw [hpid, hEq]⟩)
    rw [hz]
    unfold stockOf
    rw [hdb]
    simp
  | some p =>
    obtain ⟨hpdb, hppid⟩ := (find?_id_eq_some hids).mp hdb
    cases hupd : products2.find? (fun q => q.id == pid) with
    | some q =>
      have hp2Nodup : (productIdsOf products2).Nodup := by
        rw [hidsP2]
        exact hprodsNodup
      obtain ⟨hqmem, hqid⟩ := (find?_id_eq_some hp2Nodup).mp hupd
      have h1 : stockOf products2 pid = q.stock := by
        unfold stockOf
        rw [hupd]
      have hpidIn : pid ∈ productIdsOf prods := by
        rw [← hidsP2]
        exact List.mem_map.mpr ⟨q, hqmem, hqid⟩
      rcases List.mem_map.mp hpidIn with ⟨p2, hp2, hp2id⟩
      have hpp : p2 = p := eq_of_mem_of_id hids (hsub p2 hp2) hpdb (by rw [hp2id, hppid])
      have hfind : prods.find? (fun q => q.id == pid) = some p2 :=
        (find?_id_eq_some hprodsNodup).mpr ⟨hp2, hp2id⟩
      have h2 : stockOf prods pid = p.stock := by
        unfold stockOf
        rw [hfind, hpp]
      have h3 : stockOf st.products pid = p.stock := by
        unfold stockOf
        rw [hdb]
      dsimp only
      rw [← h1, hstockPI, h2, h3]
    | none =>
      have hnotIn : pid ∉ productIdsOf products2 := find?_id_eq_none.mp hupd
      have hz : sumQty pid dto.items = 0 := by
        apply sumQty_eq_zero
        intro it hit hEq
        rcases processItems_refs hPI it hit with ⟨p2, hp2, hpid⟩
        apply hnotIn
        rw [hidsP2]
        exact List.mem_map.mpr ⟨p2, hp2, by rw [hpid, hEq]⟩
      have h3 : stockOf st.products pid = p.stock := by
        unfold stockOf
        rw [hdb]
      dsimp only
      rw [hz, h3]
      simp

/-- Witness for C3 at a concrete order that repeats product 2 in two lines
(quantities 1 and 3 against stock 4): the committed stock is 0, not 3 or 4. -/
theorem createOrder_cumulative_deduction_witness :
    stockOf (createOrder ⟨[7], [⟨1, "w", 5, 10⟩, ⟨2, "v", 3, 4⟩], [], 100, 50⟩ []
        ⟨7, [⟨2, 1⟩, ⟨1, 2⟩, ⟨2, 3⟩], "k"⟩ none).committed.products 2 =
      stockOf [⟨1, "w", 5, 10⟩, ⟨2, "v", 3, 4⟩] 2 -
        (sumQty 2 [⟨2, 1⟩, ⟨1, 2⟩, ⟨2, 3⟩] : Int) :=
  createOrder_cumulative_deduction ⟨[7], [⟨1, "w", 5, 10⟩, ⟨2, "v", 3, 4⟩], [], 100, 50⟩ []
    ⟨7, [⟨2, 1⟩, ⟨1, 2⟩, ⟨2, 3⟩], "k"⟩
    ⟨100, 7, 22, .confirmed, "k", 50, [⟨2, 1, 3⟩, ⟨1, 2, 10⟩, ⟨2, 3, 9⟩]⟩
    (by decide) (by decide) (by decide) 2

/-- C4: on a fresh successful `createOrder`, the order's total price is the
sum of its lines' prices, every line's price is the referenced product's
unit price at order time multiplied by the line's quantity, and looking
the committed order up later returns it with those stored snapshots
whatever the product table (and hence any later price) looks like then. -/
theorem createOrder_price_snapshot (st : State) (lk : List Nat)
    (dto : CreateOrderDto) (o : Order)
    (hids : (productIdsOf st.products).Nodup)
    (hfresh : ∀ q ∈ st.orders, q.id ≠ st.nextOrderId)
    (hkey : st.orders.find? (fun q => q.idempotencyKey == dto.idempotencyKey) = none)
    (hok : (createOrder st lk dto none).response = .ok o) :
    o.totalPrice = sumPrices o.items ∧
    (∀ it ∈ o.items, ∃ p, st.products.find? (fun q => q.id == it.productId) = some p ∧
      it.price = p.price * (it.quantity : Int)) ∧
    (∀ (laterProducts : List Product) (laterUsers : List Nat) (nid2 now2 : Nat),
      findById ⟨laterUsers, laterProducts,
        (createOrder st lk dto none).committed.orders, nid2, now2⟩ o.id = some o) := by
  rw [createOrder_miss hkey] at hok ⊢
  obtain ⟨_, _, _, prods, products2, orderItems, totalPrice, hA, _, hPI, ho, hbody⟩ :=
    createOrderBody_ok_inv hok
  obtain ⟨hprods, _⟩ := acquireLocks_ok_inv hA
  have hprodsNodup : (productIdsOf prods).Nodup := by
    rw [hprods]
    exact nodup_productIdsOf_sortById (nodup_productIdsOf_filter _ hids)
  have hsub : ∀ p ∈ prods, p ∈ st.products := by
    intro p hp
    rw [hprods] at hp
    exact (List.mem_filter.mp (mem_sortById.mp hp)).1
  obtain ⟨hTot, hEach⟩ := processItems_prices hPI
  simp only at hTot hEach
  subst ho
  refine ⟨hTot, ?_, ?_⟩
  · intro it hit
    rcases hEach it hit with ⟨p, hp, hprice⟩
    obtain ⟨hpmem, hpid⟩ := (find?_id_eq_some hprodsNodup).mp hp
    exact ⟨p, (find?_id_eq_some hids).mpr ⟨hsub p hpmem, hpid⟩, hprice⟩
  · intro laterProducts laterUsers nid2 now2
    rw [hbody]
    unfold findById
    dsimp only
    rw [List.find?_append]
    have h1 : st.orders.find? (fun q => (q.id == st.nextOrderId)) = none := by
      rw [List.find?_eq_none]
      intro q hq hbeq
      exact hfresh q hq (by simpa using hbeq)
    rw [h1]
    simp

/-- Witness for C4 at a concrete order with two lines over distinct
products, checked after replacing the whole product table (price change). -/
theorem createOrder_price_snapshot_witness :
    (⟨100, 7, 22, .confirmed, "k", 50,
        [⟨2, 1, 3⟩, ⟨1, 2, 10⟩, ⟨2, 3, 9⟩]⟩ : Order).totalPrice =
      sumPrices (⟨100, 7, 22, .confirmed, "k", 50,
        [⟨2, 1, 3⟩, ⟨1, 2, 10⟩, ⟨2, 3, 9⟩]⟩ : Order).items ∧
    (∀ it ∈ (⟨100, 7, 22, .confirmed, "k", 50,
        [⟨2, 1, 3⟩, ⟨1, 2, 10⟩, ⟨2, 3, 9⟩]⟩ : Order).items,
      ∃ p, ([⟨1, "w", 5, 10⟩, ⟨2, "v", 3, 4⟩] : List Product).find?
          (fun q => q.id == it.productId) = some p ∧
        it.price = p.price * (it.quantity : Int)) ∧
    (∀ (laterProducts : List Product) (laterUsers : List Nat) (nid2 now2 : Nat),
      findById ⟨laterUsers, laterProducts,
        (createOrder ⟨[7], [⟨1, "w", 5, 10⟩, ⟨2, "v", 3, 4⟩], [], 100, 50⟩ []
          ⟨7, [⟨2, 1⟩, ⟨1, 2⟩, ⟨2, 3⟩], "k"⟩ none).committed.orders, nid2, now2⟩
        (⟨100, 7, 22, .confirmed, "k", 50,
          [⟨2, 1, 3⟩, ⟨1, 2, 10⟩, ⟨2, 3, 9⟩]⟩ : Order).id =
        some ⟨100, 7, 22, .confirmed, "k", 50, [⟨2, 1, 3⟩, ⟨1, 2, 10⟩, ⟨2, 3, 9⟩]⟩) :=
  createOrder_price_snapshot ⟨[7], [⟨1, "w", 5, 10⟩, ⟨2, "v", 3, 4⟩], [], 100, 50⟩ []
    ⟨7, [⟨2, 1⟩, ⟨1, 2⟩, ⟨2, 3⟩], "k"⟩
    ⟨100, 7, 22, .confirmed, "k", 50, [⟨2, 1, 3⟩, ⟨1, 2, 10⟩, ⟨2, 3, 9⟩]⟩
    (by decide) (by decide) (by decide) (by decide)

/-- C6: past the idempotency check, with an existing user and all
referenced products present, the lock query of a `createOrder` call covers
exactly the set of distinct referenced product ids, each once, in
ascending id order - whenever no referenced row is held by another
transaction; and if any referenced row is held, the call fails fast with
the lock-contention error, commits nothing and holds no lock. -/
theorem createOrder_lock_discipline (st : State) (lk : List Nat)
    (dto : CreateOrderDto) (fault : Option String)
    (hkey : st.orders.find? (fun q => q.idempotencyKey == dto.idempotencyKey) = none)
    (huser : dto.userId ∈ st.users)
    (hids : (productIdsOf st.products).Nodup)
    (hex : ∀ it ∈ dto.items, ∃ p ∈ st.products, p.id = it.productId) :
    ((∀ p ∈ st.products, p.id ∈ lk → ∀ it ∈ dto.items, it.productId ≠ p.id) →
      (createOrder st lk dto fault).lockedIds.Sorted (· ≤ ·) ∧
      (createOrder st lk dto fault).lockedIds.Nodup ∧
      (∀ i, i ∈ (createOrder st lk dto fault).lockedIds ↔
        ∃ it ∈ dto.items, it.productId = i)) ∧
    ((∃ p ∈ st.products, p.id ∈ lk ∧ ∃ it ∈ dto.items, it.productId = p.id) →
      (∃ ids, (createOrder st lk dto fault).response = .error (.lockContention ids)) ∧
      (createOrder st lk dto fault).committed = st ∧
      (createOrder st lk dto fault).lockedIds = []) := by
  rw [createOrder_miss hkey]
  have hmemU : ∀ i, i ∈ uniqueFirst (dto.items.map (·.productId)) ↔
      ∃ it ∈ dto.items, it.productId = i := by
    intro i
    rw [mem_uniqueFirst]
    constructor
    · intro h
      rcases List.mem_map.mp h with ⟨it, hit, rfl⟩
      exact ⟨it, hit, rfl⟩
    · rintro ⟨it, hit, rfl⟩
      exact List.mem_map.mpr ⟨it, hit, rfl⟩
  have hmatched : ∀ p, p ∈ sortById (st.products.filter
      (fun q => (uniqueFirst (dto.items.map (·.productId))).contains q.id)) ↔
      p ∈ st.products ∧ ∃ it ∈ dto.items, it.productId = p.id := by
    intro p
    rw [mem_sortById, List.mem_filter]
    constructor
    · rintro ⟨h1, h2⟩
      exact ⟨h1, (hmemU p.id).mp (mem_of_contains h2)⟩
    · rintro ⟨h1, h2⟩
      exact ⟨h1, contains_of_mem ((hmemU p.id).mpr h2)⟩
  constructor
  · intro hfree
    have hany : (sortById (st.products.filter
        (fun q => (uniqueFirst (dto.items.map (·.productId))).contains q.id))).any
        (fun p => lk.contains p.id) = false := by
      cases hb : (sortById (st.products.filter
          (fun q => (uniqueFirst (dto.items.map (·.productId))).contains q.id))).any
          (fun p => lk.contains p.id) with
      | false => rfl
      | true =>
        rcases List.any_eq_true.mp hb with ⟨p, hp, hlk⟩
        obtain ⟨hpdb, it, hit, hpid⟩ := (hmatched p).mp hp
        exact absurd hpid (hfree p hpdb (mem_of_contains hlk) it hit)
    have hA : acquireLocks st lk (uniqueFirst (dto.items.map (·.productId))) =
        .ok (sortById (st.products.filter
          (fun q => (uniqueFirst (dto.items.map (·.productId))).contains q.id))) := by
      unfold acquireLocks
      rw [if_neg (by rw [hany]; exact Bool.false_ne_true)]
    rw [createOrderBody_lockedIds huser hA]
    refine ⟨?_, ?_, ?_⟩
    · have hs : List.Pairwise idLe (sortById (st.products.filter
          (fun q => (uniqueFirst (dto.items.map (·.productId))).contains q.id))) :=
        sorted_sortById _
      exact List.Pairwise.map (fun p : Product => p.id) (fun a b (h : idLe a b) => h) hs
    · have := nodup_productIdsOf_sortById (nodup_productIdsOf_filter
        (fun q => (uniqueFirst (dto.items.map (·.productId))).contains q.id) hids)
      simpa [productIdsOf] using this
    · intro i
      constructor
      · intro h
        rcases List.mem_map.mp h with ⟨p, hp, rfl⟩
        exact ((hmatched p).mp hp).2
      · rintro ⟨it, hit, rfl⟩
        rcases hex it hit with ⟨p, hpdb, hpid⟩
        refine List.mem_map.mpr ⟨p, (hmatched p).mpr ⟨hpdb, it, hit, hpid.symm⟩, hpid⟩
  · rintro ⟨p, hpdb, hplk, it, hit, hpid⟩
    have hpm : p ∈ sortById (st.products.filter
        (fun q => (uniqueFirst (dto.items.map (·.productId))).contains q.id)) :=
      (hmatched p).mpr ⟨hpdb, it, hit, hpid⟩
    have hany : (sortById (st.products.filter
        (fun q => (uniqueFirst (dto.items.map (·.productId))).contains q.id))).any
        (fun q => lk.contains q.id) = true :=
      List.any_eq_true.mpr ⟨p, hpm, contains_of_mem hplk⟩
    have hA : acquireLocks st lk (uniqueFirst (dto.items.map (·.productId))) =
        .error (.lockContention (((sortById (st.products.filter
          (fun q => (uniqueFirst (dto.items.map (·.productId))).contains q.id))).filter
            (fun q => lk.contains q.id)).map (·.id))) := by
      unfold acquireLocks
      rw [if_pos hany]
    rw [createOrderBody_contention huser hA]
    exact ⟨⟨_, rfl⟩, rfl, rfl⟩

/-- Witness for C6 at a concrete call referencing products 2 and 1 (with a
repeat of 2): in a lock-free environment the lock set is [1, 2]; and with
row 2 held by another transaction the call fails fast. -/
theorem createOrder_lock_discipline_witness :
    (((∀ p ∈ (⟨[7], [⟨1, "w", 5, 10⟩, ⟨2, "v", 3, 4⟩], [], 100, 50⟩ : State).products,
        p.id ∈ ([] : List Nat) →
        ∀ it ∈ [(⟨2, 1⟩ : CreateOrderItemDto), ⟨1, 2⟩, ⟨2, 3⟩], it.productId ≠ p.id) →
      (createOrder ⟨[7], [⟨1, "w", 5, 10⟩, ⟨2, "v", 3, 4⟩], [], 100, 50⟩ []
        ⟨7, [⟨2, 1⟩, ⟨1, 2⟩, ⟨2, 3⟩], "k"⟩ none).lockedIds.Sorted (· ≤ ·) ∧
      (createOrder ⟨[7], [⟨1, "w", 5, 10⟩, ⟨2, "v", 3, 4⟩], [], 100, 50⟩ []
        ⟨7, [⟨2, 1⟩, ⟨1, 2⟩, ⟨2, 3⟩], "k"⟩ none).lockedIds.Nodup ∧
      (∀ i, i ∈ (createOrder ⟨[7], [⟨1, "w", 5, 10⟩, ⟨2, "v", 3, 4⟩], [], 100, 50⟩ []
          ⟨7, [⟨2, 1⟩, ⟨1, 2⟩, ⟨2, 3⟩], "k"⟩ none).lockedIds ↔
        ∃ it ∈ [(⟨2, 1⟩ : CreateOrderItemDto), ⟨1, 2⟩, ⟨2, 3⟩], it.productId = i)) ∧
     ((∃ p ∈ (⟨[7], [⟨1, "w", 5, 10⟩, ⟨2, "v", 3, 4⟩], [], 100, 50⟩ : State).products,
        p.id ∈ ([] : List Nat) ∧
        ∃ it ∈ [(⟨2, 1⟩ : CreateOrderItemDto), ⟨1, 2⟩, ⟨2, 3⟩], it.productId = p.id) →
      (∃ ids, (createOrder ⟨[7], [⟨1, "w", 5, 10⟩, ⟨2, "v", 3, 4⟩], [], 100, 50⟩ []
        ⟨7, [⟨2, 1⟩, ⟨1, 2⟩, ⟨2, 3⟩], "k"⟩ none).response =
          .error (.lockContention ids)) ∧
      (createOrder ⟨[7], [⟨1, "w", 5, 10⟩, ⟨2, "v", 3, 4⟩], [], 100, 50⟩ []
        ⟨7, [⟨2, 1⟩, ⟨1, 2⟩, ⟨2, 3⟩], "k"⟩ none).committed =
          ⟨[7], [⟨1, "w", 5, 10⟩, ⟨2, "v", 3, 4⟩], [], 100, 50⟩ ∧
      (createOrder ⟨[7], [⟨1, "w", 5, 10⟩, ⟨2, "v", 3, 4⟩], [], 100, 50⟩ []
        ⟨7, [⟨2, 1⟩, ⟨1, 2⟩, ⟨2, 3⟩], "k"⟩ none).lockedIds = [])) ∧
    (((∃ p ∈ (⟨[7], [⟨1, "w", 5, 10⟩, ⟨2, "v", 3, 4⟩], [], 100, 50⟩ : State).products,
        p.id ∈ [2] ∧
        ∃ it ∈ [(⟨2, 1⟩ : CreateOrderItemDto), ⟨1, 2⟩, ⟨2, 3⟩], it.productId = p.id) →
      (∃ ids, (createOrder ⟨[7], [⟨1, "w", 5, 10⟩, ⟨2, "v", 3, 4⟩], [], 100, 50⟩ [2]
        ⟨7, [⟨2, 1⟩, ⟨1, 2⟩, ⟨2, 3⟩], "k"⟩ none).response =
          .error (.lockContention ids)) ∧
      (createOrder ⟨[7], [⟨1, "w", 5, 10⟩, ⟨2, "v", 3, 4⟩], [], 100, 50⟩ [2]
        ⟨7, [⟨2, 1⟩, ⟨1, 2⟩, ⟨2, 3⟩], "k"⟩ none).committed =
          ⟨[7], [⟨1, "w", 5, 10⟩, ⟨2, "v", 3, 4⟩], [], 100, 50⟩ ∧
      (createOrder ⟨[7], [⟨1, "w", 5, 10⟩, ⟨2, "v", 3, 4⟩], [], 100, 50⟩ [2]
        ⟨7, [⟨2, 1⟩, ⟨1, 2⟩, ⟨2, 3⟩], "k"⟩ none).lockedIds = [])) :=
  ⟨createOrder_lock_discipline ⟨[7], [⟨1, "w", 5, 10⟩, ⟨2, "v", 3, 4⟩], [], 100, 50⟩ []
      ⟨7, [⟨2, 1⟩, ⟨1, 2⟩, ⟨2, 3⟩], "k"⟩ none (by decide) (by decide) (by decide)
      (by decide),
   (createOrder_lock_discipline ⟨[7], [⟨1, "w", 5, 10⟩, ⟨2, "v", 3, 4⟩], [], 100, 50⟩ [2]
      ⟨7, [⟨2, 1⟩, ⟨1, 2⟩, ⟨2, 3⟩], "k"⟩ none (by decide) (by decide) (by decide)
      (by decide)).2⟩

/-- C7 counterexample: two overlapping transactions with the same key both
pass the idempotency check against the initial state (no order carries the
key); the first commits; when the second resumes past its check
(`createOrderBody`) its insert hits the UNIQUE constraint and the call
surfaces the raw duplicate-key storage error, whose kind is internal - not
the conflict kind the claim requires. -/
theorem duplicate_key_surfaces_internal_cex :
    ((⟨[7], [⟨1, "w", 5, 10⟩], [], 100, 50⟩ : State).orders.find?
      (fun o => o.idempotencyKey == "k") = none) ∧
    (createOrder ⟨[7], [⟨1, "w", 5, 10⟩], [], 100, 50⟩ [] ⟨7, [⟨1, 1⟩], "k"⟩ none).response =
      .ok ⟨100, 7, 5, .confirmed, "k", 50, [⟨1, 1, 5⟩]⟩ ∧
    (createOrderBody (createOrder ⟨[7], [⟨1, "w", 5, 10⟩], [], 100, 50⟩ []
        ⟨7, [⟨1, 1⟩], "k"⟩ none).committed [] ⟨7, [⟨1, 1⟩], "k"⟩ none).response =
      .error (.duplicateKey "k") ∧
    (createOrderBody (createOrder ⟨[7], [⟨1, "w", 5, 10⟩], [], 100, 50⟩ []
        ⟨7, [⟨1, 1⟩], "k"⟩ none).committed [] ⟨7, [⟨1, 1⟩], "k"⟩ none).committed =
      (createOrder ⟨[7], [⟨1, "w", 5, 10⟩], [], 100, 50⟩ [] ⟨7, [⟨1, 1⟩], "k"⟩ none).committed ∧
    (OrderError.duplicateKey "k").kind = .internal ∧
    (OrderError.duplicateKey "k").kind ≠ .conflict := by
  refine ⟨by decide, by decide, by decide, by decide, rfl, by decide⟩

/-- C7 (amended): a second insert attempt whose idempotency key is already
present among the stored orders fails on the storage-level UNIQUE
constraint with the raw duplicate-key error; the catch block rethrows that
error unchanged after rollback, so it surfaces as a generic internal
error, not as a conflict error. -/
theorem duplicate_key_backstop (orders : List Order) (o : Order)
    (h : orders.any (fun q => q.idempotencyKey == o.idempotencyKey) = true) :
    insertOrder orders o = .error (.duplicateKey o.idempotencyKey) ∧
    (OrderError.duplicateKey o.idempotencyKey).kind = .internal ∧
    (OrderError.duplicateKey o.idempotencyKey).kind ≠ .conflict := by
  refine ⟨?_, rfl, by simp [OrderError.kind]⟩
  unfold insertOrder
  rw [if_pos h]

/-- Witness for the amended C7 at a concrete duplicate insert. -/
theorem duplicate_key_backstop_witness :
    insertOrder [⟨100, 7, 5, .confirmed, "k", 50, [⟨1, 1, 5⟩]⟩]
        ⟨101, 7, 5, .confirmed, "k", 51, [⟨1, 1, 5⟩]⟩ =
      .error (.duplicateKey "k") ∧
    (OrderError.duplicateKey "k").kind = .internal ∧
    (OrderError.duplicateKey "k").kind ≠ .conflict :=
  duplicate_key_backstop [⟨100, 7, 5, .confirmed, "k", 50, [⟨1, 1, 5⟩]⟩]
    ⟨101, 7, 5, .confirmed, "k", 51, [⟨1, 1, 5⟩]⟩ (by decide)

/-- Mirror of `ProductsService.findByIds`: empty input short-circuits,
otherwise a single `WHERE id IN (...)` fetch returns the matching rows. -/
def findByIds (db : List Product) (ids : List Nat) : List Product :=
  if ids.isEmpty then [] else db.filter (fun p => ids.contains p.id)

/-- The `ProductLoader` batch function: one `findByIds` fetch for the batch
keys, results keyed by id (the id column is the primary key, so the JS
`Map` built from the rows answers exactly like a first-match lookup), and
each key mapped to its row or to a per-key not-found error carrying the
key. -/
def batchFn (db : List Product) (ids : List Nat) : List (Except Nat Product) :=
  let products := findByIds db ids
  ids.map (fun i =>
    match products.find? (fun p => p.id == i) with
    | some p => .ok p
    | none => .error i)

/-- One DataLoader dispatch tick: all `load` calls of the tick are
coalesced; the batch function is called once with the distinct keys in
first-request order (DataLoader's per-request cache deduplicates), and
every originally requested key is re-associated with its slot of the batch
result. -/
def loadMany (db : List Product) (requested : List Nat) : List (Except Nat Product) :=
  let uniqueIds := uniqueFirst requested
  let results := batchFn db uniqueIds
  requested.map (fun i =>
    match (uniqueIds.zip results).find? (fun pr => pr.1 == i) with
    | some pr => pr.2
    | none => .error i)

/-- Direct per-key lookup semantics the loader must refine: the product
with that id when present, a not-found error naming the key otherwise. -/
def resolveKey (db : List Product) (i : Nat) : Except Nat Product :=
  match db.find? (fun p => p.id == i) with
  | some p => .ok p
  | none => .error i

/-- The underlying fetch is equivalent to filtering by key membership. -/
theorem findByIds_eq_filter (db : List Product) (ids : List Nat) :
    findByIds db ids = db.filter (fun p => ids.contains p.id) := by
  unfold findByIds
  cases ids with
  | nil =>
    simp only [List.isEmpty_nil, if_pos]
    induction db with
    | nil => rfl
    | cons p rest ih => simpa using ih
  | cons x xs => rfl

/-- Lookup by id in the fetched subset agrees with lookup in the whole
table for any key of the fetch set. -/
theorem find?_filter_ids {db : List Product} {ids : List Nat} {i : Nat}
    (hdb : (productIdsOf db).Nodup) (hi : i ∈ ids) :
    (db.filter (fun p => ids.contains p.id)).find? (fun p => p.id == i) =
      db.find? (fun p => p.id == i) := by
  cases h : db.find? (fun p => p.id == i) with
  | some p =>
    obtain ⟨hmem, hpid⟩ := (find?_id_eq_some hdb).mp h
    apply (find?_id_eq_some (nodup_productIdsOf_filter _ hdb)).mpr
    refine ⟨List.mem_filter.mpr ⟨hmem, ?_⟩, hpid⟩
    rw [hpid]
    exact contains_of_mem hi
  | none =>
    rw [List.find?_eq_none] at h ⊢
    intro x hx
    exact h x (List.mem_filter.mp hx).1

/-- In the zip of a key list with its mapped results, the first slot for a
present key holds that key's result. -/
theorem find?_zip_map (l : List Nat) (f : Nat → Except Nat Product) (i : Nat)
    (hi : i ∈ l) :
    (l.zip (l.map f)).find? (fun pr => pr.1 == i) = some (i, f i) := by
  induction l with
  | nil => cases hi
  | cons x xs ih =>
    rw [List.map_cons, List.zip_cons_cons]
    by_cases hx : x = i
    · subst hx
      simp [List.find?]
    · rw [List.find?]
      have hbeq : ((x, f x).1 == i) = false := by
        simpa using hx
      rw [hbeq]
      rcases List.mem_cons.mp hi with rfl | hi2
      · exact absurd rfl hx
      · exact ih hi2

/-- C8: a loader dispatch over any requested key list issues its single
fetch over the distinct keys and yields exactly one outcome per requested
key, in the requested position: the product with that id when the table
has it, a per-key not-found error naming the key otherwise - a missing
product fails only its own key's resolution. -/
theorem loader_batches_and_reassociates (db : List Product) (requested : List Nat)
    (hdb : (productIdsOf db).Nodup) :
    (loadMany db requested).length = requested.length ∧
    (∀ (k : Nat) (hk : k < requested.length) (hk2 : k < (loadMany db requested).length),
      (loadMany db requested).get ⟨k, hk2⟩ = resolveKey db (requested.get ⟨k, hk⟩)) := by
  constructor
  · unfold loadMany
    exact List.length_map _ _
  · intro k hk hk2
    unfold loadMany
    rw [List.get_map]
    have hmem : requested.get ⟨k, hk⟩ ∈ requested := List.get_mem requested k hk
    have hmemU : requested.get ⟨k, hk⟩ ∈ uniqueFirst requested :=
      mem_uniqueFirst.mpr hmem
    unfold batchFn
    rw [find?_zip_map (uniqueFirst requested) _ _ hmemU]
    show (match (findByIds db (uniqueFirst requested)).find?
        (fun p => p.id == requested.get ⟨k, hk⟩) with
      | some p => Except.ok p
      | none => Except.error (requested.get ⟨k, hk⟩)) = _
    rw [findByIds_eq_filter, find?_filter_ids hdb hmemU]
    rfl

/-- Witness for C8 at a concrete batch with a repeated key and a missing
key: [2, 1, 2, 9] resolves position-wise, with key 9 alone failing. -/
theorem loader_batches_and_reassociates_witness :
    (loadMany [⟨1, "w", 5, 10⟩, ⟨2, "v", 3, 4⟩] [2, 1, 2, 9]).length =
      ([2, 1, 2, 9] : List Nat).length ∧
    (loadMany [⟨1, "w", 5, 10⟩, ⟨2, "v", 3, 4⟩] [2, 1, 2, 9]).get
      ⟨3, by decide⟩ = resolveKey [⟨1, "w", 5, 10⟩, ⟨2, "v", 3, 4⟩] 9 :=
  ⟨(loader_batches_and_reassociates [⟨1, "w", 5, 10⟩, ⟨2, "v", 3, 4⟩] [2, 1, 2, 9]
      (by decide)).1,
   (loader_batches_and_reassociates [⟨1, "w", 5, 10⟩, ⟨2, "v", 3, 4⟩] [2, 1, 2, 9]
      (by decide)).2 3 (by decide) (by decide)⟩

/-- Mirror of `OrdersFilterInput`: optional status equality and inclusive
creation-time bounds, combined with AND semantics. -/
structure OrdersFilter where
  status : Option OrderStatus
  dateFrom : Option Nat
  dateTo : Option Nat
deriving Repr, DecidableEq

/-- Mirror of `OrdersPaginationInput` (defaults `limit = 20`,
`offset = 0` are applied by the transport layer). -/
structure PaginationInput where
  limit : Nat
  offset : Nat
deriving Repr, DecidableEq

/-- Mirror of the `PageInfo` GraphQL type. -/
structure PageInfo where
  hasNextPage : Bool
  hasPreviousPage : Bool
deriving Repr, DecidableEq

/-- Mirror of the `OrdersConnection` GraphQL type. -/
structure OrdersConnection where
  nodes : List Order
  totalCount : Nat
  pageInfo : PageInfo
deriving Repr, DecidableEq

/-- The filter predicate of the listing query (`andWhere` clauses of
`findAll`/`findAllPaginated`): status equality and inclusive date
bounds, each applied only when present. -/
def matchesFilter (f : OrdersFilter) (o : Order) : Bool :=
  (match f.status with
    | some s => o.status == s
    | none => true) &&
  (match f.dateFrom with
    | some d => decide (d ≤ o.createdAt)
    | none => true) &&
  (match f.dateTo with
    | some d => decide (o.createdAt ≤ d)
    | none => true)

/-- Ordering used by `ORDER BY order.createdAt DESC`. -/
def createdDesc (a b : Order) : Prop := b.createdAt ≤ a.createdAt

instance : DecidableRel createdDesc :=
  fun a b => inferInstanceAs (Decidable (b.createdAt ≤ a.createdAt))

/-- Rows of the listing query in most-recent-first order. -/
def sortByCreatedAtDesc (l : List Order) : List Order := List.insertionSort createdDesc l

/-- Modelled from the spec: the body of `OrdersService.findAllPaginated` is
not part of the provided source tree - only its caller
`OrdersResolver.orders` and the docs reference it.  Following the spec's
Paginated Query Builder contract: nodes are the filtered orders ordered by
creation time descending with offset skipped and limit taken, `totalCount`
counts all filtered rows independently of limit/offset (the
`getManyAndCount` pair), `hasNextPage = offset + limit < totalCount` and
`hasPreviousPage = offset > 0`. -/
def findAllPaginated (st : State) (f : OrdersFilter) (pg : PaginationInput) :
    OrdersConnection :=
  let all := sortByCreatedAtDesc (st.orders.filter (matchesFilter f))
  { nodes := (all.drop pg.offset).take pg.limit,
    totalCount := all.length,
    pageInfo :=
      { hasNextPage := decide (pg.offset + pg.limit < all.length),
        hasPreviousPage := decide (0 < pg.offset) } }

/-- C9 counterexample: with a filter matching nothing but a positive
offset, the spec's own `hasPreviousPage = offset > 0` formula forces the
previous-page flag to true, so "an empty result set yields both flags
false" fails as a universal statement. -/
theorem pagination_empty_flags_cex :
    (findAllPaginated ⟨[], [], [], 0, 0⟩ ⟨none, none, none⟩ ⟨20, 5⟩).totalCount = 0 ∧
    (findAllPaginated ⟨[], [], [], 0, 0⟩ ⟨none, none, none⟩ ⟨20, 5⟩).nodes = [] ∧
    (findAllPaginated ⟨[], [], [], 0, 0⟩ ⟨none, none, none⟩ ⟨20, 5⟩).pageInfo.hasPreviousPage
      = true := by
  refine ⟨rfl, rfl, rfl⟩

/-- C9 (amended): for every listing call, `hasNextPage` holds exactly when
`offset + limit < totalCount` and `hasPreviousPage` exactly when
`offset > 0`, where `totalCount` counts all rows matching the filter
independently of limit and offset; an empty result set is a normal
outcome with `nodes = []`, `hasNextPage = false`, and
`hasPreviousPage = false` whenever `offset = 0` (with a positive offset
the offset formula makes `hasPreviousPage` true even on an empty set). -/
theorem pagination_flags (st : State) (f : OrdersFilter) (pg : PaginationInput) :
    ((findAllPaginated st f pg).pageInfo.hasNextPage = true ↔
      pg.offset + pg.limit < (findAllPaginated st f pg).totalCount) ∧
    ((findAllPaginated st f pg).pageInfo.hasPreviousPage = true ↔ 0 < pg.offset) ∧
    (findAllPaginated st f pg).totalCount = (st.orders.filter (matchesFilter f)).length ∧
    ((findAllPaginated st f pg).totalCount = 0 →
      (findAllPaginated st f pg).nodes = [] ∧
      (findAllPaginated st f pg).pageInfo.hasNextPage = false ∧
      (pg.offset = 0 → (findAllPaginated st f pg).pageInfo.hasPreviousPage = false)) := by
  have hlen : (sortByCreatedAtDesc (st.orders.filter (matchesFilter f))).length =
      (st.orders.filter (matchesFilter f)).length :=
    (List.perm_insertionSort createdDesc _).length_eq
  refine ⟨?_, ?_, ?_, ?_⟩
  · show (decide (pg.offset + pg.limit <
      (sortByCreatedAtDesc (st.orders.filter (matchesFilter f))).length) = true) ↔ _
    rw [decide_eq_true_iff]
    exact Iff.rfl
  · show (decide (0 < pg.offset) = true) ↔ _
    rw [decide_eq_true_iff]
  · exact hlen
  · intro h0
    have hnil : sortByCreatedAtDesc (st.orders.filter (matchesFilter f)) = [] :=
      List.length_eq_zero.mp h0
    refine ⟨?_, ?_, ?_⟩
    · show ((sortByCreatedAtDesc (st.orders.filter (matchesFilter f))).drop
        pg.offset).take pg.limit = []
      rw [hnil]
      simp
    · show decide (pg.offset + pg.limit <
        (sortByCreatedAtDesc (st.orders.filter (matchesFilter f))).length) = false
      rw [hnil]
      simp
    · intro hoff
      show decide (0 < pg.offset) = false
      rw [hoff]
      rfl

end OrdersSpec
